import Mathlib

/-!
Shallow embedding of the sea-schema migration engine
(src/migration/{migrator,manager,statement,connection,seaql_migrations}.rs).

The engine is modelled as pure functions over explicit state:
a migration unit is its name together with the success outcome of its
user-supplied up and down bodies; the history table is a list of rows;
each engine operation returns the new history, the list of database
events it emitted (in order), and an optional error.
-/

namespace SeaSchema

/-- Backend tag, from connection.rs (MigrationDbBackend). -/
inductive MigrationDbBackend
  | MySql
  | Postgres
  | Sqlite
deriving DecidableEq, Repr

/-- History row, from seaql_migrations.rs (Model). -/
structure Model where
  version : String
  applied_at : Int
deriving DecidableEq, Repr

/-- A declared migration unit: its stable name and the outcomes of its
user-supplied up and down bodies (true = the body returns Ok). -/
structure MigrationUnit where
  name : String
  upOk : Bool
  downOk : Bool
deriving DecidableEq, Repr

/-- Migration status, from migrator.rs (MigrationStatus). -/
inductive MigrationStatus
  | Pending
  | Applied
deriving DecidableEq, Repr

/-- Engine-level errors: a message lifted via into_migration_error, or an
error returned by a user migration body (which the engine propagates). -/
inductive MigErr
  | lifted (msg : String)
  | user (unitName : String)
deriving DecidableEq, Repr

/-- Single-quote character, used by the drift message formats. -/
def sq : String := String.singleton (Char.ofNat 39)

/-- Drift message for a name mismatch at some index, from migrator.rs line 91.
The Rust format string interpolates the declared file name twice and the
recorded version once. -/
def mismatch_message (fileName recorded : String) : String :=
  "Migration mismatch: applied migration != migration file, " ++ sq ++ fileName ++ sq
    ++ " != " ++ sq ++ recorded ++ sq
    ++ "\nMigration " ++ sq ++ fileName ++ sq
    ++ " has been applied but its corresponding migration file is missing."

/-- Drift message for a history row with no declared unit at its index,
from migrator.rs line 94. -/
def missing_message (recorded : String) : String :=
  "Migration file of version " ++ sq ++ recorded ++ sq
    ++ " is missing, this migration has been applied but its file is missing"

/-- Reconciliation core of MigratorTrait::get_migration_with_status
(migrator.rs lines 80-98): walk the history rows by index; the declared
unit at the same index must exist and carry the same name, in which case it
becomes Applied; a mismatch or a missing unit is a drift error; declared
units beyond the history keep their initial Pending status. -/
def get_migration_with_status :
    List MigrationUnit → List Model →
      Except String (List (MigrationUnit × MigrationStatus))
  | fs, [] => .ok (fs.map (fun f => (f, MigrationStatus.Pending)))
  | [], m :: _ => .error (missing_message m.version)
  | f :: fs, m :: ms =>
    if f.name = m.version then
      match get_migration_with_status fs ms with
      | .ok rest => .ok ((f, MigrationStatus.Applied) :: rest)
      | .error e => .error e
    else
      .error (mismatch_message f.name m.version)

/-- Lexicographic comparison of char lists by code point, the textual order
the database applies to the version column. -/
def charListLtB : List Char → List Char → Bool
  | [], [] => false
  | [], _ :: _ => true
  | _ :: _, [] => false
  | a :: as, b :: bs =>
    if a.toNat < b.toNat then true
    else if b.toNat < a.toNat then false
    else charListLtB as bs

/-- Strict lexicographic order on strings. -/
def strLtB (a b : String) : Bool := charListLtB a.data b.data

/-- Lexicographic order on strings, as the negation of the reversed strict
order. -/
def strLeB (a b : String) : Bool := !(strLtB b a)

/-- Relation by which get_migration_models orders history rows
(ORDER BY version ASC, migrator.rs line 70). -/
def byVersion (a b : Model) : Prop := strLeB a.version b.version = true

instance : DecidableRel byVersion :=
  fun a b => inferInstanceAs (Decidable (strLeB a.version b.version = true))

/-- The database sorts the history selection by version ascending;
modelled as a stable insertion sort on the stored rows. -/
def sort_by_version (l : List Model) : List Model :=
  l.insertionSort byVersion

/-- Status filter of get_pending_migrations (migrator.rs lines 100-110). -/
def pending_of (l : List (MigrationUnit × MigrationStatus)) : List MigrationUnit :=
  (l.filter (fun p => p.2 == MigrationStatus.Pending)).map Prod.fst

/-- Status filter of get_applied_migrations (migrator.rs lines 112-122). -/
def applied_of (l : List (MigrationUnit × MigrationStatus)) : List MigrationUnit :=
  (l.filter (fun p => p.2 == MigrationStatus.Applied)).map Prod.fst

/-- Fragment of the sea_query expression language used by the engine. -/
inductive SqlExpr
  | col (name : String)
  | cust (sql : String)
  | strVal (v : String)
deriving DecidableEq, Repr

/-- WHERE conditions the engine builds (all conjoined by Condition::all). -/
inductive WhereCond
  | exprEqualsCol (e : SqlExpr) (table col : String)
  | colEqStr (col v : String)
  | colNeStr (col v : String)
deriving DecidableEq, Repr

/-- FROM source of a subquery-free select. -/
inductive BaseRef
  | table (name : String)
  | schemaTable (schema tbl : String)
deriving DecidableEq, Repr

/-- A select statement without subquery: selected expressions with optional
aliases, a FROM source, and conjoined WHERE conditions. -/
structure SelectNoSub where
  sels : List (SqlExpr × Option String)
  src : BaseRef
  conds : List WhereCond
deriving DecidableEq, Repr

/-- The count select built by has_table: COUNT(*) aliased, over a filtered
subquery of the table enumeration. -/
structure TopSelect where
  sels : List (SqlExpr × Option String)
  sub : SelectNoSub
  subAlias : String
deriving DecidableEq, Repr

/-- get_current_schema (migrator.rs lines 367-376): DATABASE() on MySQL,
CURRENT_SCHEMA() on Postgres; the SQLite arm is unimplemented and panics,
modelled as none. -/
def get_current_schema (b : MigrationDbBackend) : Option SqlExpr :=
  match b with
  | .MySql => some (.cust "DATABASE()")
  | .Postgres => some (.cust "CURRENT_SCHEMA()")
  | .Sqlite => none

/-- query_tables (migrator.rs lines 329-365): dialect-specific enumeration of
user tables, one column aliased table_name. The MySQL and Postgres arms call
get_current_schema; a none result there would be the propagated panic. -/
def query_tables (b : MigrationDbBackend) : Option SelectNoSub :=
  match b with
  | .MySql =>
    (get_current_schema b).map (fun schemaExpr =>
      { sels := [(.col "table_name", some "table_name")]
        src := .schemaTable "information_schema" "tables"
        conds := [.exprEqualsCol schemaExpr "tables" "table_schema"] })
  | .Postgres =>
    (get_current_schema b).map (fun schemaExpr =>
      { sels := [(.col "table_name", some "table_name")]
        src := .schemaTable "information_schema" "tables"
        conds := [.exprEqualsCol schemaExpr "tables" "table_schema",
                  .colEqStr "table_type" "BASE TABLE"] })
  | .Sqlite =>
    some
      { sels := [(.col "name", some "table_name")]
        src := .table "sqlite_master"
        conds := [.colEqStr "type" "table", .colNeStr "name" "sqlite_sequence"] }

/-- The foreign-key-constraint enumeration built by fresh under MySQL
(migrator.rs lines 160-178); it calls get_current_schema. -/
def fk_constraints_select (b : MigrationDbBackend) : Option SelectNoSub :=
  (get_current_schema b).map (fun schemaExpr =>
    { sels := [(.col "TABLE_NAME", none), (.col "CONSTRAINT_NAME", none)]
      src := .schemaTable "information_schema" "table_constraints"
      conds := [.exprEqualsCol schemaExpr "table_constraints" "table_schema",
                .exprEqualsCol (.strVal "FOREIGN KEY") "table_constraints" "constraint_type"] })

/-- Database events an engine operation emits, in order: statement
executions, queries, and invocations of user migration bodies. -/
inductive DbEvent
  | install
  | execRaw (sql : String)
  | queryAllSelect (q : SelectNoSub)
  | dropForeignKey (table fk : String)
  | dropTable (name : String) (ifExists cascade : Bool)
  | queryHistory
  | upBody (name : String) (ok : Bool)
  | insertHistory (version : String) (applied_at : Int)
  | downBody (name : String) (ok : Bool)
  | deleteHistory (version : String)
deriving DecidableEq, Repr

/-- Outcome of an engine operation: final history table contents, the events
emitted, and the error it returned (none = Ok). -/
structure RunOutcome where
  hist : List Model
  trace : List DbEvent
  err : Option MigErr
deriving DecidableEq, Repr

/-- The Rust u64-to-i64 "as" cast applied to Duration::as_secs in up
(migrator.rs line 282): two-sided complement wrap. -/
def u64_as_i64 (n : Nat) : Int :=
  if n % 2 ^ 64 < 2 ^ 63 then ((n % 2 ^ 64 : Nat) : Int)
  else ((n % 2 ^ 64 : Nat) : Int) - 2 ^ 64

/-- SystemTime::now().duration_since(UNIX_EPOCH) followed by expect
(migrator.rs lines 273-275): the clock is an offset in whole seconds from
the Unix epoch; a negative offset makes duration_since return Err and the
expect panic, modelled as none. -/
def now_unix_secs (clock : Int) : Option Nat :=
  if clock < 0 then none else some clock.toNat

/-- Events emitted by up and down before their loop: install is executed by
the operation itself, by get_pending_migrations or get_applied_migrations,
by get_migration_with_status, and by get_migration_models, which then
selects the history rows. -/
def up_pre_trace : List DbEvent :=
  [.install, .install, .install, .install, .queryHistory]

/-- Loop of MigratorTrait::up (migrator.rs lines 263-285): for each pending
unit, first check and decrement the remaining steps (breaking when they hit
zero), run the up body, and only on its success insert the history row; a
body error stops the loop with the history as it stands. -/
def up_loop (secs : Nat) :
    List MigrationUnit → Option Nat → List Model → List DbEvent → RunOutcome
  | [], _, hist, tr => ⟨hist, tr, none⟩
  | u :: us, steps, hist, tr =>
    match steps with
    | some 0 => ⟨hist, tr, none⟩
    | some (n + 1) =>
      if u.upOk then
        up_loop secs us (some n) (hist ++ [⟨u.name, u64_as_i64 secs⟩])
          (tr ++ [.upBody u.name true, .insertHistory u.name (u64_as_i64 secs)])
      else
        ⟨hist, tr ++ [.upBody u.name false], some (.user u.name)⟩
    | none =>
      if u.upOk then
        up_loop secs us none (hist ++ [⟨u.name, u64_as_i64 secs⟩])
          (tr ++ [.upBody u.name true, .insertHistory u.name (u64_as_i64 secs)])
      else
        ⟨hist, tr ++ [.upBody u.name false], some (.user u.name)⟩

/-- MigratorTrait::up (migrator.rs lines 246-288): install, compute the
pending units via reconciliation of the declared list with the sorted
history, then run the loop. A drift error is returned as lifted. -/
def run_up (units : List MigrationUnit) (hist : List Model) (secs : Nat)
    (steps : Option Nat) : RunOutcome :=
  match get_migration_with_status units (sort_by_version hist) with
  | .error e => ⟨hist, up_pre_trace, some (.lifted e)⟩
  | .ok l => up_loop secs (pending_of l) steps hist up_pre_trace

/-- Loop of MigratorTrait::down (migrator.rs lines 308-323): for each unit of
the reversed applied list, check and decrement steps, run the down body, and
only on its success delete the history rows with its version. -/
def down_loop :
    List MigrationUnit → Option Nat → List Model → List DbEvent → RunOutcome
  | [], _, hist, tr => ⟨hist, tr, none⟩
  | u :: us, steps, hist, tr =>
    match steps with
    | some 0 => ⟨hist, tr, none⟩
    | some (n + 1) =>
      if u.downOk then
        down_loop us (some n) (hist.filter (fun m => m.version != u.name))
          (tr ++ [.downBody u.name true, .deleteHistory u.name])
      else
        ⟨hist, tr ++ [.downBody u.name false], some (.user u.name)⟩
    | none =>
      if u.downOk then
        down_loop us none (hist.filter (fun m => m.version != u.name))
          (tr ++ [.downBody u.name true, .deleteHistory u.name])
      else
        ⟨hist, tr ++ [.downBody u.name false], some (.user u.name)⟩

/-- MigratorTrait::down (migrator.rs lines 291-326): install, compute the
applied units, reverse them, then run the loop. -/
def run_down (units : List MigrationUnit) (hist : List Model)
    (steps : Option Nat) : RunOutcome :=
  match get_migration_with_status units (sort_by_version hist) with
  | .error e => ⟨hist, up_pre_trace, some (.lifted e)⟩
  | .ok l => down_loop ((applied_of l).reverse) steps hist up_pre_trace

/-- Database state as far as status observes it: whether the history table
exists and its row contents. -/
structure DbState where
  historyTableExists : Bool
  history : List Model
deriving DecidableEq, Repr

/-- MigratorTrait::install (migrator.rs lines 125-142): CREATE TABLE IF NOT
EXISTS seaql_migrations; creates an empty table when absent, otherwise
leaves the database untouched. -/
def install (st : DbState) : DbState :=
  if st.historyTableExists then st
  else { historyTableExists := true, history := [] }

/-- Events emitted by status: its own install, the installs of
get_migration_with_status and get_migration_models, then the history
selection. -/
def status_trace : List DbEvent :=
  [.install, .install, .install, .queryHistory]

/-- MigratorTrait::status (migrator.rs lines 233-243): install, reconcile and
log each unit with its status. Returns the new database state, the error if
reconciliation drifted, and the events emitted. -/
def run_status (units : List MigrationUnit) (st : DbState) :
    DbState × Option MigErr × List DbEvent :=
  let st1 := install (install (install st))
  match get_migration_with_status units (sort_by_version st1.history) with
  | .error e => (st1, some (.lifted e), status_trace)
  | .ok _ => (st1, none, status_trace)

/-- Environment fresh queries against: the rows the MySQL foreign-key
enumeration returns as pairs (TABLE_NAME, CONSTRAINT_NAME), and the
table_name rows the user-table enumeration returns. -/
structure FreshEnv where
  fkRows : List (String × String)
  tableRows : List String
deriving DecidableEq, Repr

/-- MigratorTrait::fresh (migrator.rs lines 145-219): install; on SQLite
execute PRAGMA foreign_keys = OFF; on MySQL enumerate and drop every
foreign key; enumerate all user tables and drop each with IF EXISTS and
CASCADE (wiping the history when seaql_migrations is among them); on SQLite
execute PRAGMA foreign_keys = ON; finally up(conn, None). A none result is
a propagated get_current_schema panic. -/
def run_fresh (b : MigrationDbBackend) (env : FreshEnv)
    (units : List MigrationUnit) (hist : List Model) (secs : Nat) :
    Option RunOutcome :=
  let tr1 : List DbEvent :=
    [.install] ++ (if b = .Sqlite then [.execRaw "PRAGMA foreign_keys = OFF"] else [])
  (if b = .MySql then
      (fk_constraints_select b).map (fun q =>
        DbEvent.queryAllSelect q ::
          env.fkRows.map (fun r => DbEvent.dropForeignKey r.1 r.2))
    else some []).bind (fun fkTr =>
  (query_tables b).map (fun qt =>
    let tr2 := tr1 ++ fkTr ++ DbEvent.queryAllSelect qt ::
      env.tableRows.map (fun t => DbEvent.dropTable t true true)
    let hist1 := if "seaql_migrations" ∈ env.tableRows then [] else hist
    let tr3 := tr2 ++ (if b = .Sqlite then [.execRaw "PRAGMA foreign_keys = ON"] else [])
    let res := run_up units hist1 secs none
    ⟨res.hist, tr3 ++ res.trace, res.err⟩))

/-- The statement kinds implementing MigrationStatementBuilder
(statement.rs): parameterized query statements, parameterless schema
statements, the three Postgres-only type statements, and raw strings. -/
inductive StmtKind
  | insertStmt
  | selectStmt
  | updateStmt
  | deleteStmt
  | tableCreate
  | tableDrop
  | tableAlter
  | tableRename
  | tableTruncate
  | indexCreate
  | indexDrop
  | fkCreate
  | fkDrop
  | typeCreate
  | typeAlter
  | typeDrop
  | rawString (s : String)
deriving DecidableEq, Repr

/-- Failure of MigrationStatementBuilder::build. The build_postgres_stmt
macro (statement.rs lines 18-25) hits unimplemented!() for MySQL and SQLite;
the spec surfaces that as the UnsupportedForBackend error kind. -/
inductive BuildErr
  | unsupportedForBackend
deriving DecidableEq, Repr

/-- MigrationStatementBuilder::build (statement.rs lines 27-82), with the
external sea_query rendering abstracted as the render argument: query
statements return sql with their parameter values, schema statements return
sql with no values, Postgres type statements build only for Postgres, and a
raw string echoes itself with no values. -/
def build_stmt (render : StmtKind → MigrationDbBackend → String × List String)
    (k : StmtKind) (b : MigrationDbBackend) :
    Except BuildErr (String × List String) :=
  match k with
  | .insertStmt | .selectStmt | .updateStmt | .deleteStmt => .ok (render k b)
  | .tableCreate | .tableDrop | .tableAlter | .tableRename | .tableTruncate
  | .indexCreate | .indexDrop | .fkCreate | .fkDrop => .ok ((render k b).1, [])
  | .typeCreate | .typeAlter | .typeDrop =>
    match b with
    | .Postgres => .ok ((render k b).1, [])
    | .MySql | .Sqlite => .error .unsupportedForBackend
  | .rawString s => .ok (s, [])

/-- Modelled from the spec: the dispatch implementation of the connection
trait is not under src (only the trait is); section 4.2 of the spec says the
implementation calls build(backend) and forwards (sql, params) to the
driver. Returns whether execution succeeded and the list of SQL actually
sent to the driver. -/
def exec_dispatch (render : StmtKind → MigrationDbBackend → String × List String)
    (k : StmtKind) (b : MigrationDbBackend) :
    Option Unit × List (String × List String) :=
  match build_stmt render k b with
  | .error _ => (none, [])
  | .ok sp => (some (), [sp])

/-- The statement SchemaManager::has_table builds (manager.rs lines 112-130):
COUNT(*) aliased rows over the query_tables subquery further filtered by
table_name equality, the subquery aliased subquery. -/
def has_table_stmt (b : MigrationDbBackend) (table : String) : Option TopSelect :=
  (query_tables b).map (fun qt =>
    { sels := [(.cust "COUNT(*)", some "rows")]
      sub := { qt with conds := qt.conds ++ [.colEqStr "table_name" table] }
      subAlias := "subquery" })

/-- Result handling of has_table: query_one returning no row is lifted into
an error; otherwise the count read from column rows decides the answer. -/
def has_table_result (resp : Option Int) : Except MigErr Bool :=
  match resp with
  | none => .error (.lifted "Fail to check table exists")
  | some rows => .ok (rows > 0)

/-- SchemaManager::has_table, as the statement it issues paired with the
result computed from the driver response resp to that statement. -/
def has_table (b : MigrationDbBackend) (table : String) (resp : Option Int) :
    Option (TopSelect × Except MigErr Bool) :=
  (has_table_stmt b table).map (fun q => (q, has_table_result resp))

/-- Units the loop will look at: all of them when steps is None, at most
steps of them otherwise. -/
def taken_units (steps : Option Nat) (l : List MigrationUnit) : List MigrationUnit :=
  match steps with
  | none => l
  | some s => l.take s

/-- The run of units whose up body succeeds, before the first failure. -/
def up_ok_run (l : List MigrationUnit) : List MigrationUnit :=
  l.takeWhile (fun u => u.upOk)

/-- The first unit whose up body fails, if any. -/
def up_first_fail (l : List MigrationUnit) : Option MigrationUnit :=
  (l.dropWhile (fun u => u.upOk)).head?

/-- History rows the successful units insert, in order. -/
def up_inserts (secs : Nat) (l : List MigrationUnit) : List Model :=
  l.map (fun u => ⟨u.name, u64_as_i64 secs⟩)

/-- Per-unit event pairs of up: the successful body strictly followed by its
history insert. -/
def up_pair_trace (secs : Nat) (l : List MigrationUnit) : List DbEvent :=
  (l.map (fun u =>
    [DbEvent.upBody u.name true, DbEvent.insertHistory u.name (u64_as_i64 secs)])).flatten

/-- Trailing event of up when some body fails: that body alone, with no
insert after it and no later unit attempted. -/
def up_fail_trace (l : List MigrationUnit) : List DbEvent :=
  match up_first_fail l with
  | some u => [DbEvent.upBody u.name false]
  | none => []

/-- The run of units whose down body succeeds, before the first failure. -/
def down_ok_run (l : List MigrationUnit) : List MigrationUnit :=
  l.takeWhile (fun u => u.downOk)

/-- The first unit whose down body fails, if any. -/
def down_first_fail (l : List MigrationUnit) : Option MigrationUnit :=
  (l.dropWhile (fun u => u.downOk)).head?

/-- Sequential deletion of history rows by version, one delete statement per
name, in order. -/
def delete_all (names : List String) (hist : List Model) : List Model :=
  names.foldl (fun h n => h.filter (fun m => m.version != n)) hist

/-- Per-unit event pairs of down: the successful body strictly followed by
its history delete. -/
def down_pair_trace (l : List MigrationUnit) : List DbEvent :=
  (l.map (fun u => [DbEvent.downBody u.name true, DbEvent.deleteHistory u.name])).flatten

/-- Trailing event of down when some body fails. -/
def down_fail_trace (l : List MigrationUnit) : List DbEvent :=
  match down_first_fail l with
  | some u => [DbEvent.downBody u.name false]
  | none => []

/-- The foreign-key enumeration fresh issues when the backend is MySQL,
spelled out: select TABLE_NAME, CONSTRAINT_NAME from
information_schema.table_constraints where table_schema is the current
schema and constraint_type is FOREIGN KEY. -/
def mysql_fk_select : SelectNoSub :=
  { sels := [(.col "TABLE_NAME", none), (.col "CONSTRAINT_NAME", none)]
    src := .schemaTable "information_schema" "table_constraints"
    conds := [.exprEqualsCol (.cust "DATABASE()") "table_constraints" "table_schema",
              .exprEqualsCol (.strVal "FOREIGN KEY") "table_constraints" "constraint_type"] }

/-- The user-table enumeration under SQLite, spelled out: select name
aliased table_name from sqlite_master where type is table and name is not
sqlite_sequence. -/
def sqlite_tables_select : SelectNoSub :=
  { sels := [(.col "name", some "table_name")]
    src := .table "sqlite_master"
    conds := [.colEqStr "type" "table", .colNeStr "name" "sqlite_sequence"] }

theorem up_loop_none_eq (secs : Nat) :
    ∀ (pending : List MigrationUnit) (hist : List Model) (tr : List DbEvent),
    up_loop secs pending none hist tr =
      ⟨hist ++ up_inserts secs (up_ok_run pending),
       tr ++ up_pair_trace secs (up_ok_run pending) ++ up_fail_trace pending,
       (up_first_fail pending).map (fun u => MigErr.user u.name)⟩ := by
  intro pending
  induction pending with
  | nil =>
    intro hist tr
    simp [up_loop, up_ok_run, up_first_fail, up_inserts, up_pair_trace, up_fail_trace]
  | cons u us ih =>
    intro hist tr
    cases hu : u.upOk with
    | true =>
      simp [up_loop, hu, ih, up_ok_run, up_first_fail, up_inserts, up_pair_trace,
        up_fail_trace, List.append_assoc]
    | false =>
      simp [up_loop, hu, up_ok_run, up_first_fail, up_inserts, up_pair_trace,
        up_fail_trace]

theorem up_loop_steps_eq (secs : Nat) :
    ∀ (pending : List MigrationUnit) (s : Nat) (hist : List Model) (tr : List DbEvent),
    up_loop secs pending (some s) hist tr = up_loop secs (pending.take s) none hist tr := by
  intro pending
  induction pending with
  | nil => intro s hist tr; cases s <;> simp [up_loop]
  | cons u us ih =>
    intro s hist tr
    cases s with
    | zero => simp [up_loop]
    | succ n =>
      cases hu : u.upOk with
      | true => simp [up_loop, hu, ih]
      | false => simp [up_loop, hu]

/-- Closed form of the up loop. -/
theorem up_loop_eq (secs : Nat) (pending : List MigrationUnit) (steps : Option Nat)
    (hist : List Model) (tr : List DbEvent) :
    up_loop secs pending steps hist tr =
      ⟨hist ++ up_inserts secs (up_ok_run (taken_units steps pending)),
       tr ++ up_pair_trace secs (up_ok_run (taken_units steps pending))
          ++ up_fail_trace (taken_units steps pending),
       (up_first_fail (taken_units steps pending)).map (fun u => MigErr.user u.name)⟩ := by
  cases steps with
  | none => simpa [taken_units] using up_loop_none_eq secs pending hist tr
  | some s =>
    rw [up_loop_steps_eq]
    simpa [taken_units] using up_loop_none_eq secs (pending.take s) hist tr

theorem down_loop_none_eq :
    ∀ (l : List MigrationUnit) (hist : List Model) (tr : List DbEvent),
    down_loop l none hist tr =
      ⟨delete_all ((down_ok_run l).map MigrationUnit.name) hist,
       tr ++ down_pair_trace (down_ok_run l) ++ down_fail_trace l,
       (down_first_fail l).map (fun u => MigErr.user u.name)⟩ := by
  intro l
  induction l with
  | nil =>
    intro hist tr
    simp [down_loop, down_ok_run, down_first_fail, delete_all, down_pair_trace,
      down_fail_trace]
  | cons u us ih =>
    intro hist tr
    cases hu : u.downOk with
    | true =>
      simp [down_loop, hu, ih, down_ok_run, down_first_fail, delete_all,
        down_pair_trace, down_fail_trace, List.append_assoc]
    | false =>
      simp [down_loop, hu, down_ok_run, down_first_fail, delete_all,
        down_pair_trace, down_fail_trace]

theorem down_loop_steps_eq :
    ∀ (l : List MigrationUnit) (s : Nat) (hist : List Model) (tr : List DbEvent),
    down_loop l (some s) hist tr = down_loop (l.take s) none hist tr := by
  intro l
  induction l with
  | nil => intro s hist tr; cases s <;> simp [down_loop]
  | cons u us ih =>
    intro s hist tr
    cases s with
    | zero => simp [down_loop]
    | succ n =>
      cases hu : u.downOk with
      | true => simp [down_loop, hu, ih]
      | false => simp [down_loop, hu]

/-- Closed form of the down loop. -/
theorem down_loop_eq (l : List MigrationUnit) (steps : Option Nat)
    (hist : List Model) (tr : List DbEvent) :
    down_loop l steps hist tr =
      ⟨delete_all ((down_ok_run (taken_units steps l)).map MigrationUnit.name) hist,
       tr ++ down_pair_trace (down_ok_run (taken_units steps l))
          ++ down_fail_trace (taken_units steps l),
       (down_first_fail (taken_units steps l)).map (fun u => MigErr.user u.name)⟩ := by
  cases steps with
  | none => simpa [taken_units] using down_loop_none_eq l hist tr
  | some s =>
    rw [down_loop_steps_eq]
    simpa [taken_units] using down_loop_none_eq (l.take s) hist tr

/-- Closed form of up when reconciliation succeeds. -/
theorem run_up_ok_eq (units : List MigrationUnit) (hist : List Model) (secs : Nat)
    (steps : Option Nat) (l : List (MigrationUnit × MigrationStatus))
    (h : get_migration_with_status units (sort_by_version hist) = .ok l) :
    run_up units hist secs steps =
      ⟨hist ++ up_inserts secs (up_ok_run (taken_units steps (pending_of l))),
       up_pre_trace ++ up_pair_trace secs (up_ok_run (taken_units steps (pending_of l)))
          ++ up_fail_trace (taken_units steps (pending_of l)),
       (up_first_fail (taken_units steps (pending_of l))).map
         (fun u => MigErr.user u.name)⟩ := by
  simp [run_up, h, up_loop_eq]

/-- Closed form of down when reconciliation succeeds. -/
theorem run_down_ok_eq (units : List MigrationUnit) (hist : List Model)
    (steps : Option Nat) (l : List (MigrationUnit × MigrationStatus))
    (h : get_migration_with_status units (sort_by_version hist) = .ok l) :
    run_down units hist steps =
      ⟨delete_all
          ((down_ok_run (taken_units steps (applied_of l).reverse)).map
            MigrationUnit.name) hist,
       up_pre_trace
          ++ down_pair_trace (down_ok_run (taken_units steps (applied_of l).reverse))
          ++ down_fail_trace (taken_units steps (applied_of l).reverse),
       (down_first_fail (taken_units steps (applied_of l).reverse)).map
         (fun u => MigErr.user u.name)⟩ := by
  simp [run_down, h, down_loop_eq]

/-- Reconciling against an empty history marks every declared unit Pending. -/
theorem gmws_nil_models (files : List MigrationUnit) :
    get_migration_with_status files [] =
      .ok (files.map (fun f => (f, MigrationStatus.Pending))) := by
  cases files <;> rfl

/-- Reconciling against a history whose versions are exactly the declared
names, in order, marks every declared unit Applied. -/
theorem gmws_all_applied (t : Int) :
    ∀ units : List MigrationUnit,
    get_migration_with_status units (units.map (fun u => ⟨u.name, t⟩)) =
      .ok (units.map (fun u => (u, MigrationStatus.Applied))) := by
  intro units
  induction units with
  | nil => rfl
  | cons u us ih => simp [get_migration_with_status, ih]

theorem pending_of_all_pending (files : List MigrationUnit) :
    pending_of (files.map (fun f => (f, MigrationStatus.Pending))) = files := by
  induction files with
  | nil => rfl
  | cons f fs ih => simp [pending_of, List.filter] at ih ⊢; exact ih

theorem applied_of_all_applied (files : List MigrationUnit) :
    applied_of (files.map (fun f => (f, MigrationStatus.Applied))) = files := by
  induction files with
  | nil => rfl
  | cons f fs ih => simp [applied_of, List.filter] at ih ⊢; exact ih

theorem charListLtB_asymm :
    ∀ as bs, charListLtB as bs = true → charListLtB bs as = false := by
  intro as
  induction as with
  | nil =>
    intro bs h
    cases bs with
    | nil => simp [charListLtB] at h
    | cons b bs => simp [charListLtB]
  | cons a as ih =>
    intro bs h
    cases bs with
    | nil => simp [charListLtB] at h
    | cons b bs =>
      simp only [charListLtB] at h ⊢
      by_cases h1 : a.toNat < b.toNat
      · simp [h1, Nat.lt_asymm h1]
      · by_cases h2 : b.toNat < a.toNat
        · simp [h1, h2] at h
        · simp only [h1, h2, if_neg, if_false] at h ⊢
          simp [ih bs h]

/-- A strictly smaller name is also weakly smaller. -/
theorem strLtB_le {a b : String} (h : strLtB a b = true) : strLeB a b = true := by
  simp [strLeB, strLtB] at *
  simp [charListLtB_asymm _ _ h]

/-- Sorting an already sorted history is the identity. -/
theorem sort_by_version_sorted (l : List Model) (h : List.Pairwise byVersion l) :
    sort_by_version l = l :=
  List.Sorted.insertionSort_eq h

theorem takeWhile_all_true {α : Type} (p : α → Bool) :
    ∀ l : List α, (∀ a ∈ l, p a = true) → l.takeWhile p = l := by
  intro l
  induction l with
  | nil => intro _; rfl
  | cons a as ih =>
    intro h
    simp [List.takeWhile_cons, h a (by simp), ih (fun x hx => h x (by simp [hx]))]

theorem dropWhile_all_true {α : Type} (p : α → Bool) :
    ∀ l : List α, (∀ a ∈ l, p a = true) → l.dropWhile p = [] := by
  intro l
  induction l with
  | nil => intro _; rfl
  | cons a as ih =>
    intro h
    simp [List.dropWhile_cons, h a (by simp), ih (fun x hx => h x (by simp [hx]))]

theorem delete_all_eq_filter :
    ∀ (names : List String) (hist : List Model),
    delete_all names hist = hist.filter (fun m => !(names.contains m.version)) := by
  intro names
  induction names with
  | nil => intro hist; simp [delete_all]
  | cons n ns ih =>
    intro hist
    simp only [delete_all, List.foldl_cons] at *
    rw [ih (hist.filter (fun m => m.version != n)), List.filter_filter]
    congr 1
    funext m
    by_cases hm : m.version = n <;> simp [hm]

/-- Deleting every version present empties the history. -/
theorem delete_all_of_covered (names : List String) (hist : List Model)
    (h : ∀ m ∈ hist, m.version ∈ names) : delete_all names hist = [] := by
  rw [delete_all_eq_filter]
  apply List.filter_eq_nil_iff.mpr
  intro m hm
  simp [h m hm]

/-- C1: reconciliation pairs the declared list and the history rows by
positional index. It succeeds exactly when the history versions are the
index-wise names of the declared units, in which case the matched units are
Applied and the declared units beyond the history are Pending; otherwise it
returns a drift error whose message is the mismatch message naming the
declared name and the recorded version, or the missing-file message naming
the recorded version alone when no declared unit exists at the index. -/
theorem reconcile_pairs_by_index :
    ∀ (files : List MigrationUnit) (models : List Model),
    (∀ l, get_migration_with_status files models = Except.ok l →
        models.map Model.version = (files.map MigrationUnit.name).take models.length
        ∧ l = (files.take models.length).map (fun f => (f, MigrationStatus.Applied))
            ++ (files.drop models.length).map (fun f => (f, MigrationStatus.Pending)))
    ∧ (∀ e, get_migration_with_status files models = Except.error e →
        models.map Model.version ≠ (files.map MigrationUnit.name).take models.length
        ∧ ((∃ (i : Nat) (f : MigrationUnit) (m : Model),
              files[i]? = some f ∧ models[i]? = some m
              ∧ f.name ≠ m.version ∧ e = mismatch_message f.name m.version)
          ∨ (∃ m, models[files.length]? = some m
              ∧ e = missing_message m.version))) := by
  intro files
  induction files with
  | nil =>
    intro models
    cases models with
    | nil =>
      refine ⟨fun l hl => ?_, fun e he => ?_⟩
      · simp [get_migration_with_status] at hl
        simp [hl]
      · simp [get_migration_with_status] at he
    | cons m ms =>
      refine ⟨fun l hl => ?_, fun e he => ?_⟩
      · simp [get_migration_with_status] at hl
      · simp only [get_migration_with_status, Except.error.injEq] at he
        refine ⟨by simp, Or.inr ⟨m, by simp, he.symm⟩⟩
  | cons f fs ih =>
    intro models
    cases models with
    | nil =>
      refine ⟨fun l hl => ?_, fun e he => ?_⟩
      · rw [gmws_nil_models] at hl
        simp at hl
        simp [hl]
      · rw [gmws_nil_models] at he
        simp at he
    | cons m ms =>
      by_cases hname : f.name = m.version
      · refine ⟨fun l hl => ?_, fun e he => ?_⟩
        · simp only [get_migration_with_status, hname, if_pos] at hl
          cases hrec : get_migration_with_status fs ms with
          | ok rest =>
            rw [hrec] at hl
            simp only [Except.ok.injEq] at hl
            obtain ⟨hpre, hres⟩ := (ih ms).1 rest hrec
            subst hl
            constructor
            · simp [List.take_succ_cons, hname, hpre]
            · simp [List.take_succ_cons, List.drop_succ_cons, hres]
          | error e =>
            rw [hrec] at hl
            simp at hl
        · simp only [get_migration_with_status, hname, if_pos] at he
          cases hrec : get_migration_with_status fs ms with
          | ok rest =>
            rw [hrec] at he
            simp at he
          | error e2 =>
            rw [hrec] at he
            simp only [Except.error.injEq] at he
            subst he
            obtain ⟨hpre, hcase⟩ := (ih ms).2 e2 hrec
            constructor
            · intro hcontra
              simp only [List.map_cons, List.length_cons, List.take_succ_cons,
                List.cons.injEq] at hcontra
              exact hpre hcontra.2
            · rcases hcase with ⟨i, f2, m2, hf, hm, hne, hmsg⟩ | ⟨m2, hm, hmsg⟩
              · exact Or.inl ⟨i + 1, f2, m2,
                  by simp only [List.getElem?_cons_succ]; exact hf,
                  by simp only [List.getElem?_cons_succ]; exact hm, hne, hmsg⟩
              · exact Or.inr ⟨m2,
                  by simp only [List.length_cons, List.getElem?_cons_succ]; exact hm,
                  hmsg⟩
      · refine ⟨fun l hl => ?_, fun e he => ?_⟩
        · simp only [get_migration_with_status] at hl
          rw [if_neg hname] at hl
          simp at hl
        · simp only [get_migration_with_status] at he
          rw [if_neg hname] at he
          simp only [Except.error.injEq] at he
          constructor
          · intro hcontra
            simp only [List.map_cons, List.length_cons, List.take_succ_cons,
              List.cons.injEq] at hcontra
            exact hname hcontra.1.symm
          · exact Or.inl ⟨0, f, m, List.getElem?_cons_zero, List.getElem?_cons_zero,
              hname, he.symm⟩

/-- Witness for reconcile_pairs_by_index at a concrete input: two declared
units, one matching history row; the first unit is Applied, the second
Pending. -/
theorem reconcile_pairs_by_index_witness :
    get_migration_with_status
        [⟨"a", true, true⟩, ⟨"b", true, true⟩] [⟨"a", 7⟩] =
      Except.ok [(⟨"a", true, true⟩, MigrationStatus.Applied),
        (⟨"b", true, true⟩, MigrationStatus.Pending)]
    ∧ (([⟨"a", 7⟩] : List Model).map Model.version
          = (([⟨"a", true, true⟩, ⟨"b", true, true⟩] : List MigrationUnit).map
              MigrationUnit.name).take 1
        ∧ [(⟨"a", true, true⟩, MigrationStatus.Applied),
            (⟨"b", true, true⟩, MigrationStatus.Pending)]
          = (([⟨"a", true, true⟩, ⟨"b", true, true⟩] : List MigrationUnit).take 1).map
              (fun f => (f, MigrationStatus.Applied))
            ++ (([⟨"a", true, true⟩, ⟨"b", true, true⟩] : List MigrationUnit).drop 1).map
              (fun f => (f, MigrationStatus.Pending))) :=
  ⟨by rfl,
    (reconcile_pairs_by_index [⟨"a", true, true⟩, ⟨"b", true, true⟩] [⟨"a", 7⟩]).1
      [(⟨"a", true, true⟩, MigrationStatus.Applied),
        (⟨"b", true, true⟩, MigrationStatus.Pending)] (by rfl)⟩

/-- C2: within one invocation, up emits for each processed pending unit its
successful body event immediately followed by the history insert of that unit,
so the insert happens strictly after the body returns successfully; when a
body fails, that unit gets no insert, no later unit is attempted, the
inserts of the earlier units remain in the history, and the body error is
returned. Down is symmetric, deleting a history row strictly after the down
body succeeds. -/
theorem up_down_body_then_record (units : List MigrationUnit) (hist : List Model)
    (secs : Nat) (stepsUp stepsDown : Option Nat)
    (l : List (MigrationUnit × MigrationStatus))
    (h : get_migration_with_status units (sort_by_version hist) = Except.ok l) :
    run_up units hist secs stepsUp =
      ⟨hist ++ up_inserts secs (up_ok_run (taken_units stepsUp (pending_of l))),
       up_pre_trace
          ++ up_pair_trace secs (up_ok_run (taken_units stepsUp (pending_of l)))
          ++ up_fail_trace (taken_units stepsUp (pending_of l)),
       (up_first_fail (taken_units stepsUp (pending_of l))).map
         (fun u => MigErr.user u.name)⟩
    ∧ run_down units hist stepsDown =
      ⟨delete_all
          ((down_ok_run (taken_units stepsDown (applied_of l).reverse)).map
            MigrationUnit.name) hist,
       up_pre_trace
          ++ down_pair_trace (down_ok_run (taken_units stepsDown (applied_of l).reverse))
          ++ down_fail_trace (taken_units stepsDown (applied_of l).reverse),
       (down_first_fail (taken_units stepsDown (applied_of l).reverse)).map
         (fun u => MigErr.user u.name)⟩ :=
  ⟨run_up_ok_eq units hist secs stepsUp l h, run_down_ok_eq units hist stepsDown l h⟩

/-- Witness for up_down_body_then_record: two pending units; the second up
body fails, so only the first is recorded, its insert follows its body, the
failing body emits no insert, and the error names the second unit. -/
theorem up_down_body_then_record_witness :
    get_migration_with_status [⟨"a", true, true⟩, ⟨"b", false, true⟩]
        (sort_by_version []) =
      Except.ok [(⟨"a", true, true⟩, MigrationStatus.Pending),
        (⟨"b", false, true⟩, MigrationStatus.Pending)]
    ∧ run_up [⟨"a", true, true⟩, ⟨"b", false, true⟩] [] 7 none =
      ⟨[⟨"a", 7⟩],
       up_pre_trace ++ [.upBody "a" true, .insertHistory "a" 7, .upBody "b" false],
       some (.user "b")⟩ :=
  ⟨by rfl, by
    rw [(up_down_body_then_record [⟨"a", true, true⟩, ⟨"b", false, true⟩] [] 7
      none none
      [(⟨"a", true, true⟩, MigrationStatus.Pending),
        (⟨"b", false, true⟩, MigrationStatus.Pending)] (by rfl)).1]
    decide⟩

/-- C6 (amended): provided reconciliation succeeds (no drift), up and down
with steps = Some 0 process no unit and succeed with the history unchanged,
and any steps bound at least the number of pending (resp. applied) units
behaves exactly as steps = None. The unamended claim fails on a drifted
history state: see steps_zero_errs_on_drift. -/
theorem steps_zero_and_saturation (units : List MigrationUnit) (hist : List Model)
    (secs : Nat) (l : List (MigrationUnit × MigrationStatus))
    (h : get_migration_with_status units (sort_by_version hist) = Except.ok l) :
    run_up units hist secs (some 0) = ⟨hist, up_pre_trace, none⟩
    ∧ run_down units hist (some 0) = ⟨hist, up_pre_trace, none⟩
    ∧ (∀ s : Nat, (pending_of l).length ≤ s →
        run_up units hist secs (some s) = run_up units hist secs none)
    ∧ (∀ s : Nat, (applied_of l).length ≤ s →
        run_down units hist (some s) = run_down units hist none) := by
  refine ⟨?_, ?_, ?_, ?_⟩
  · rw [run_up_ok_eq units hist secs (some 0) l h]
    simp [taken_units, up_ok_run, up_first_fail, up_inserts, up_pair_trace,
      up_fail_trace]
  · rw [run_down_ok_eq units hist (some 0) l h]
    simp [taken_units, down_ok_run, down_first_fail, delete_all, down_pair_trace,
      down_fail_trace]
  · intro s hs
    rw [run_up_ok_eq units hist secs (some s) l h,
      run_up_ok_eq units hist secs none l h]
    simp [taken_units, List.take_of_length_le hs]
  · intro s hs
    rw [run_down_ok_eq units hist (some s) l h,
      run_down_ok_eq units hist none l h]
    have hs2 : (applied_of l).reverse.length ≤ s := by
      simpa [List.length_reverse] using hs
    simp [taken_units, List.take_of_length_le hs2]

/-- C6 counterexample: on a drifted state (one recorded version, no declared
unit) up and down with steps = Some 0 return the drift error, not success,
refuting the claim as stated over every history state. -/
theorem steps_zero_errs_on_drift :
    (run_up [] [⟨"x", 0⟩] 0 (some 0)).err = some (.lifted (missing_message "x"))
    ∧ (run_down [] [⟨"x", 0⟩] (some 0)).err
        = some (.lifted (missing_message "x")) := by
  decide

/-- Witness for steps_zero_and_saturation: one pending unit, clean state;
Some 0 is a recorded no-op and Some 5 coincides with None. -/
theorem steps_zero_and_saturation_witness :
    get_migration_with_status [⟨"a", true, true⟩] (sort_by_version []) =
      Except.ok [(⟨"a", true, true⟩, MigrationStatus.Pending)]
    ∧ run_up [⟨"a", true, true⟩] [] 0 (some 0) = ⟨[], up_pre_trace, none⟩
    ∧ run_up [⟨"a", true, true⟩] [] 0 (some 5) = run_up [⟨"a", true, true⟩] [] 0 none :=
  ⟨by rfl,
    (steps_zero_and_saturation [⟨"a", true, true⟩] [] 0
      [(⟨"a", true, true⟩, MigrationStatus.Pending)] (by rfl)).1,
    (steps_zero_and_saturation [⟨"a", true, true⟩] [] 0
      [(⟨"a", true, true⟩, MigrationStatus.Pending)] (by rfl)).2.2.1 5 (by decide)⟩

/-- C8 (amended): for a declared list whose names are strictly ascending, as
the version naming convention guarantees, and whose bodies all succeed,
up(None) from an empty history succeeds recording exactly the declared rows
in order, and a following down(None) succeeds rolling every unit back, so
the history is empty at both endpoints. Without the ascending-name
hypothesis the claim fails: see up_then_down_not_noop. -/
theorem up_then_down_roundtrip (units : List MigrationUnit) (secs : Nat)
    (hsorted : units.Pairwise (fun a b => strLtB a.name b.name = true))
    (hup : ∀ u ∈ units, u.upOk = true)
    (hdown : ∀ u ∈ units, u.downOk = true) :
    (run_up units [] secs none).err = none
    ∧ (run_up units [] secs none).hist = up_inserts secs units
    ∧ (run_down units (up_inserts secs units) none).err = none
    ∧ (run_down units (up_inserts secs units) none).hist = [] := by
  have h1 : get_migration_with_status units (sort_by_version []) =
      Except.ok (units.map (fun f => (f, MigrationStatus.Pending))) := by
    rw [show sort_by_version [] = [] from rfl, gmws_nil_models]
  have hupeq := run_up_ok_eq units [] secs none _ h1
  rw [pending_of_all_pending] at hupeq
  have htake : up_ok_run (taken_units none units) = units := by
    simpa [taken_units, up_ok_run] using takeWhile_all_true _ units hup
  have hfail : up_first_fail (taken_units none units) = none := by
    simp [taken_units, up_first_fail, dropWhile_all_true _ units hup]
  have hsort2 : List.Pairwise byVersion (up_inserts secs units) := by
    unfold up_inserts
    refine List.Pairwise.map _ ?_ hsorted
    intro a b hab
    exact strLtB_le hab
  have h2 : get_migration_with_status units
      (sort_by_version (up_inserts secs units)) =
      Except.ok (units.map (fun u => (u, MigrationStatus.Applied))) := by
    rw [sort_by_version_sorted _ hsort2]
    simpa [up_inserts] using gmws_all_applied (u64_as_i64 secs) units
  have hdowneq := run_down_ok_eq units (up_inserts secs units) none _ h2
  rw [applied_of_all_applied] at hdowneq
  have hdownrev : ∀ u ∈ units.reverse, u.downOk = true :=
    fun u hu => hdown u (List.mem_reverse.mp hu)
  have htaked : down_ok_run (taken_units none units.reverse) = units.reverse := by
    simpa [taken_units, down_ok_run] using
      takeWhile_all_true _ units.reverse hdownrev
  have hfaild : down_first_fail (taken_units none units.reverse) = none := by
    simp [taken_units, down_first_fail, dropWhile_all_true _ units.reverse hdownrev]
  have hdel : delete_all (units.reverse.map MigrationUnit.name)
      (up_inserts secs units) = [] := by
    apply delete_all_of_covered
    intro m hm
    simp only [up_inserts, List.mem_map] at hm
    obtain ⟨u, hu, rfl⟩ := hm
    simp only [List.mem_map, List.mem_reverse]
    exact ⟨u, hu, rfl⟩
  refine ⟨?_, ?_, ?_, ?_⟩
  · rw [hupeq]; simp [hfail]
  · rw [hupeq]; simp [htake]
  · rw [hdowneq]; simp [hfaild]
  · rw [hdowneq]
    simp only [htaked]
    show delete_all (units.reverse.map MigrationUnit.name) (up_inserts secs units) = []
    exact hdel

/-- C8 counterexample: two declared units with non-ascending names and
all-succeeding bodies, from an empty history; up(None) succeeds, but the
following down(None) drifts (the history sorted by version no longer
matches the declared order), so the history is not empty afterwards and the
claim fails as stated for every declared list. -/
theorem up_then_down_not_noop :
    (run_up [⟨"m2", true, true⟩, ⟨"m1", true, true⟩] [] 0 none).err = none
    ∧ (run_down [⟨"m2", true, true⟩, ⟨"m1", true, true⟩]
        (run_up [⟨"m2", true, true⟩, ⟨"m1", true, true⟩] [] 0 none).hist none).err
      = some (.lifted (mismatch_message "m2" "m1"))
    ∧ (run_down [⟨"m2", true, true⟩, ⟨"m1", true, true⟩]
        (run_up [⟨"m2", true, true⟩, ⟨"m1", true, true⟩] [] 0 none).hist none).hist
      ≠ [] := by
  decide

/-- Witness for up_then_down_roundtrip: two ascending units with succeeding
bodies round-trip to an empty history. -/
theorem up_then_down_roundtrip_witness :
    ([⟨"a", true, true⟩, ⟨"b", true, true⟩] : List MigrationUnit).Pairwise
        (fun a b => strLtB a.name b.name = true)
    ∧ (∀ u ∈ ([⟨"a", true, true⟩, ⟨"b", true, true⟩] : List MigrationUnit),
        u.upOk = true)
    ∧ (∀ u ∈ ([⟨"a", true, true⟩, ⟨"b", true, true⟩] : List MigrationUnit),
        u.downOk = true)
    ∧ ((run_up [⟨"a", true, true⟩, ⟨"b", true, true⟩] [] 3 none).err = none
       ∧ (run_up [⟨"a", true, true⟩, ⟨"b", true, true⟩] [] 3 none).hist
          = up_inserts 3 [⟨"a", true, true⟩, ⟨"b", true, true⟩]
       ∧ (run_down [⟨"a", true, true⟩, ⟨"b", true, true⟩]
            (up_inserts 3 [⟨"a", true, true⟩, ⟨"b", true, true⟩]) none).err = none
       ∧ (run_down [⟨"a", true, true⟩, ⟨"b", true, true⟩]
            (up_inserts 3 [⟨"a", true, true⟩, ⟨"b", true, true⟩]) none).hist = []) :=
  ⟨by decide, by decide, by decide,
    up_then_down_roundtrip [⟨"a", true, true⟩, ⟨"b", true, true⟩] 3
      (by decide) (by decide) (by decide)⟩

/-- C5 (amended): when the history table already exists, status leaves the
database state, both schema and history contents, unchanged, and emits only
install statements and the history selection. When the table is missing,
install creates it, so status is not read-only on every database state: see
status_creates_missing_history_table. -/
theorem status_read_only_when_installed (units : List MigrationUnit)
    (st : DbState) (h : st.historyTableExists = true) :
    (run_status units st).1 = st ∧ (run_status units st).2.2 = status_trace := by
  have hinst : install (install (install st)) = st := by
    simp [install, h]
  simp only [run_status, hinst]
  cases hg : get_migration_with_status units (sort_by_version st.history) <;>
    simp [hg]

/-- C5 counterexample: from a state without the history table, status
returns with the table created, so the schema is not byte-identical before
and after the call. -/
theorem status_creates_missing_history_table :
    (run_status [] ⟨false, []⟩).1 ≠ ⟨false, []⟩
    ∧ (run_status [] ⟨false, []⟩).1 = ⟨true, []⟩ := by
  decide

/-- Witness for status_read_only_when_installed on an existing, empty
history table. -/
theorem status_read_only_witness :
    (⟨true, []⟩ : DbState).historyTableExists = true
    ∧ ((run_status [] ⟨true, []⟩).1 = ⟨true, []⟩
       ∧ (run_status [] ⟨true, []⟩).2.2 = status_trace) :=
  ⟨rfl, status_read_only_when_installed [] ⟨true, []⟩ rfl⟩

/-- C9 (amended): a clock before the Unix epoch makes the timestamp
computation panic rather than return an error value; at or after the epoch
the panic branch is unreachable and the whole-second count is produced;
and, provided that count is below 2 to the 63, the value up inserts as
applied_at equals it and is non-negative. At 2 to the 63 seconds the as
cast wraps negative, refuting the unamended claim: see
applied_at_wraps_negative. -/
theorem applied_at_epoch_guard :
    (∀ clock : Int, clock < 0 → now_unix_secs clock = none)
    ∧ (∀ clock : Int, 0 ≤ clock → now_unix_secs clock = some clock.toNat)
    ∧ (∀ secs : Nat, secs < 2 ^ 63 → u64_as_i64 secs = secs ∧ 0 ≤ u64_as_i64 secs)
    ∧ (∀ (secs : Nat) (l : List MigrationUnit), secs < 2 ^ 63 →
        ∀ m ∈ up_inserts secs l, 0 ≤ m.applied_at) := by
  have hcast : ∀ secs : Nat, secs < 2 ^ 63 → u64_as_i64 secs = secs := by
    intro secs h
    have h64 : secs % 2 ^ 64 = secs := Nat.mod_eq_of_lt (lt_trans h (by norm_num))
    unfold u64_as_i64
    rw [h64, if_pos h]
  refine ⟨fun clock h => by simp [now_unix_secs, h],
    fun clock h => by simp [now_unix_secs, not_lt.mpr h],
    fun secs h => ⟨hcast secs h, by rw [hcast secs h]; exact Int.ofNat_nonneg secs⟩,
    ?_⟩
  intro secs l h m hm
  simp only [up_inserts, List.mem_map] at hm
  obtain ⟨u, hu, rfl⟩ := hm
  show 0 ≤ u64_as_i64 secs
  rw [hcast secs h]
  exact Int.ofNat_nonneg secs

/-- C9 counterexample: at 2 to the 63 seconds after the epoch the clock is
at or after the epoch, yet the row up inserts carries a negative
applied_at, because the u64-to-i64 as cast wraps. -/
theorem applied_at_wraps_negative :
    now_unix_secs (2 ^ 63) = some (2 ^ 63)
    ∧ u64_as_i64 (2 ^ 63) = -(2 ^ 63)
    ∧ (run_up [⟨"m1", true, true⟩] [] (2 ^ 63) none).hist
      = [⟨"m1", -(2 ^ 63)⟩] := by
  decide

/-- Witness for applied_at_epoch_guard at concrete clocks. -/
theorem applied_at_epoch_guard_witness :
    ((-1 : Int) < 0 ∧ now_unix_secs (-1) = none)
    ∧ ((0 : Int) ≤ 5 ∧ now_unix_secs 5 = some (Int.toNat 5))
    ∧ ((5 : Nat) < 2 ^ 63 ∧ u64_as_i64 5 = 5 ∧ 0 ≤ u64_as_i64 5)
    ∧ 0 ≤ (Model.mk "a" (u64_as_i64 5)).applied_at :=
  ⟨⟨by decide, applied_at_epoch_guard.1 (-1) (by decide)⟩,
   ⟨by decide, applied_at_epoch_guard.2.1 5 (by decide)⟩,
   ⟨by decide, applied_at_epoch_guard.2.2.1 5 (by decide)⟩,
   applied_at_epoch_guard.2.2.2 5 [⟨"a", true, true⟩] (by decide)
     (Model.mk "a" (u64_as_i64 5)) (by decide)⟩

/-- C3: building a Postgres user-defined-type statement for the MySQL or
SQLite backend fails with the unsupported-for-backend failure (the
unimplemented panic of build_postgres_stmt), and executing such a statement
through a connection of those backends sends no SQL to the driver. -/
theorem type_stmt_unsupported :
    ∀ (render : StmtKind → MigrationDbBackend → String × List String)
      (k : StmtKind) (b : MigrationDbBackend),
    (k = .typeCreate ∨ k = .typeAlter ∨ k = .typeDrop) →
    (b = .MySql ∨ b = .Sqlite) →
    build_stmt render k b = .error .unsupportedForBackend
    ∧ exec_dispatch render k b = (none, []) := by
  rintro render k b (rfl | rfl | rfl) (rfl | rfl) <;>
    simp [build_stmt, exec_dispatch]

/-- Witness for type_stmt_unsupported: a TypeCreateStatement under SQLite
fails to build and nothing reaches the driver. -/
theorem type_stmt_unsupported_witness :
    (StmtKind.typeCreate = StmtKind.typeCreate
      ∨ StmtKind.typeCreate = StmtKind.typeAlter
      ∨ StmtKind.typeCreate = StmtKind.typeDrop)
    ∧ (MigrationDbBackend.Sqlite = MigrationDbBackend.MySql
      ∨ MigrationDbBackend.Sqlite = MigrationDbBackend.Sqlite)
    ∧ (build_stmt (fun _ _ => ("", [])) StmtKind.typeCreate MigrationDbBackend.Sqlite
        = .error .unsupportedForBackend
      ∧ exec_dispatch (fun _ _ => ("", [])) StmtKind.typeCreate
          MigrationDbBackend.Sqlite = (none, [])) :=
  ⟨Or.inl rfl, Or.inr rfl,
    type_stmt_unsupported (fun _ _ => ("", [])) StmtKind.typeCreate
      MigrationDbBackend.Sqlite (Or.inl rfl) (Or.inr rfl)⟩

/-- C4: fresh performs, in exactly this order: install; on SQLite the
literal PRAGMA foreign_keys = OFF; on MySQL the foreign-key enumeration
followed by one drop per constraint row; the user-table enumeration
followed by one DROP TABLE IF EXISTS CASCADE per table row; on SQLite the
literal PRAGMA foreign_keys = ON; finally up(conn, None), whose events,
history, and error conclude the operation. -/
theorem fresh_exact_order (b : MigrationDbBackend) (env : FreshEnv)
    (units : List MigrationUnit) (hist : List Model) (secs : Nat)
    (qt : SelectNoSub) (hqt : query_tables b = some qt) :
    run_fresh b env units hist secs =
      some ⟨(run_up units (if "seaql_migrations" ∈ env.tableRows then [] else hist)
              secs none).hist,
        [DbEvent.install]
          ++ (if b = .Sqlite then [DbEvent.execRaw "PRAGMA foreign_keys = OFF"]
              else [])
          ++ (if b = .MySql then
                DbEvent.queryAllSelect mysql_fk_select ::
                  env.fkRows.map (fun r => DbEvent.dropForeignKey r.1 r.2)
              else [])
          ++ (DbEvent.queryAllSelect qt ::
              env.tableRows.map (fun t => DbEvent.dropTable t true true))
          ++ (if b = .Sqlite then [DbEvent.execRaw "PRAGMA foreign_keys = ON"]
              else [])
          ++ (run_up units (if "seaql_migrations" ∈ env.tableRows then [] else hist)
              secs none).trace,
        (run_up units (if "seaql_migrations" ∈ env.tableRows then [] else hist)
          secs none).err⟩ := by
  cases b with
  | MySql =>
    simp only [query_tables, get_current_schema, Option.map_some',
      Option.some.injEq] at hqt
    subst hqt
    simp [run_fresh, query_tables, fk_constraints_select, get_current_schema,
      mysql_fk_select]
  | Postgres =>
    simp only [query_tables, get_current_schema, Option.map_some',
      Option.some.injEq] at hqt
    subst hqt
    simp [run_fresh, query_tables, fk_constraints_select, get_current_schema]
  | Sqlite =>
    simp only [query_tables, Option.some.injEq] at hqt
    subst hqt
    simp [run_fresh, query_tables]

/-- Witness for fresh_exact_order under SQLite with one user table. -/
theorem fresh_exact_order_witness :
    query_tables MigrationDbBackend.Sqlite = some sqlite_tables_select
    ∧ run_fresh MigrationDbBackend.Sqlite ⟨[], ["t1"]⟩ [] [] 0 =
      some ⟨(run_up [] (if "seaql_migrations" ∈ (FreshEnv.mk [] ["t1"]).tableRows
              then [] else []) 0 none).hist,
        [DbEvent.install]
          ++ (if MigrationDbBackend.Sqlite = MigrationDbBackend.Sqlite then
                [DbEvent.execRaw "PRAGMA foreign_keys = OFF"]
              else [])
          ++ (if MigrationDbBackend.Sqlite = MigrationDbBackend.MySql then
                DbEvent.queryAllSelect mysql_fk_select ::
                  (FreshEnv.mk [] ["t1"]).fkRows.map
                    (fun r => DbEvent.dropForeignKey r.1 r.2)
              else [])
          ++ (DbEvent.queryAllSelect sqlite_tables_select ::
              (FreshEnv.mk [] ["t1"]).tableRows.map
                (fun t => DbEvent.dropTable t true true))
          ++ (if MigrationDbBackend.Sqlite = MigrationDbBackend.Sqlite then
                [DbEvent.execRaw "PRAGMA foreign_keys = ON"]
              else [])
          ++ (run_up [] (if "seaql_migrations" ∈ (FreshEnv.mk [] ["t1"]).tableRows
              then [] else []) 0 none).trace,
        (run_up [] (if "seaql_migrations" ∈ (FreshEnv.mk [] ["t1"]).tableRows
          then [] else []) 0 none).err⟩ :=
  ⟨rfl, fresh_exact_order MigrationDbBackend.Sqlite ⟨[], ["t1"]⟩ [] [] 0
    sqlite_tables_select rfl⟩

/-- C7: has_table issues the COUNT(*) select aliased rows over the
dialect-specific table enumeration filtered by table_name equality, and
returns true exactly when the returned count is positive; when query_one
returns no row at all it fails with the lifted message rather than
returning false. -/
theorem has_table_counts (b : MigrationDbBackend) (table : String)
    (resp : Option Int) (qt : SelectNoSub) (hqt : query_tables b = some qt) :
    has_table b table resp =
      some (⟨[(.cust "COUNT(*)", some "rows")],
        { qt with conds := qt.conds ++ [.colEqStr "table_name" table] },
        "subquery"⟩, has_table_result resp)
    ∧ has_table_result none = .error (.lifted "Fail to check table exists")
    ∧ (∀ rows : Int, has_table_result (some rows) = .ok true ↔ 0 < rows) := by
  refine ⟨by simp [has_table, has_table_stmt, hqt], rfl, fun rows => ?_⟩
  simp [has_table_result]

/-- Witness for has_table_counts: SQLite, table cake, one matching row. -/
theorem has_table_counts_witness :
    query_tables MigrationDbBackend.Sqlite = some sqlite_tables_select
    ∧ has_table MigrationDbBackend.Sqlite "cake" (some 1) =
      some (⟨[(.cust "COUNT(*)", some "rows")],
        { sqlite_tables_select with
            conds := sqlite_tables_select.conds ++ [.colEqStr "table_name" "cake"] },
        "subquery"⟩, has_table_result (some 1)) :=
  ⟨rfl, (has_table_counts MigrationDbBackend.Sqlite "cake" (some 1)
    sqlite_tables_select rfl).1⟩

/-- C10: get_current_schema is partial, panicking (none) exactly on SQLite;
its call sites guard it so that every engine operation that reaches it,
query_tables, fresh, and has_table, produces a value for every backend, so
the panicking branch is unreachable through the public operations. -/
theorem get_current_schema_unreachable :
    get_current_schema .Sqlite = none
    ∧ (∀ b, (query_tables b).isSome = true)
    ∧ (∀ (b : MigrationDbBackend) (env : FreshEnv) (units : List MigrationUnit)
        (hist : List Model) (secs : Nat),
        (run_fresh b env units hist secs).isSome = true)
    ∧ (∀ (b : MigrationDbBackend) (table : String) (resp : Option Int),
        (has_table b table resp).isSome = true) := by
  refine ⟨rfl, ?_, ?_, ?_⟩
  · intro b
    cases b <;> rfl
  · intro b env units hist secs
    cases b <;>
      simp [run_fresh, query_tables, fk_constraints_select, get_current_schema]
  · intro b table resp
    cases b <;>
      simp [has_table, has_table_stmt, query_tables, get_current_schema]

end SeaSchema
